import Mathlib

/-!
Verification development for the sentence-level, checkpointed translation
pipeline in `translate_with_google.py` (repository HCSS-Eastview-clean).

The Python program is shallowly embedded: pandas DataFrames become `Table`
(a column list plus rows of association lists, where a missing value `none`
plays the role of NaN), the `googletrans` remote capability becomes an
abstract function, article-level unexpected exceptions become an abstract
oracle, the filesystem holding the checkpoint becomes an explicit value
threaded through the run, and `KeyboardInterrupt` becomes an explicit
interrupt point between loop iterations.  All definitions are executable so
that concrete runs can be evaluated inside proofs.
-/

namespace Eastview

/-! ## Cells, rows and tables (embedding of pandas DataFrames)

A `Cell` is `none` for a missing value (NaN) and `some s` for the string
`s`.  A `Row` is an association list from column names to cells; a `Table`
keeps the column list and the row list of a DataFrame. -/

abbrev Cell := Option String

abbrev Row := List (String × Cell)

structure Table where
  cols : List String
  rows : List Row
deriving DecidableEq

/-- Reading a cell of a row: the first binding of the column name, with an
absent column read as a missing value. -/
def getCell (r : Row) (c : String) : Cell :=
  (List.lookup c r).join

/-- Writing a cell: replace the first binding of the column, or append a new
binding when the column is absent (`df.at[i, c] = v`). -/
def setCell : Row → String → Cell → Row
  | [], c, v => [(c, v)]
  | (k, w) :: rest, c, v =>
    if k = c then (k, v) :: rest else (k, w) :: setCell rest c v

/-- Python `str(x)` applied to a cell: NaN prints as `"nan"`. -/
def cellToStr : Cell → String
  | none => "nan"
  | some s => s

/-- The `ArticleID` column of every row, in row order. -/
def idsOf (t : Table) : List Cell :=
  t.rows.map (fun r => getCell r "ArticleID")

/-! ## URL recognition (embedding of `_URL_RE` and `re.sub`)

The regex is
`(?:https?://|ftp://)\S+|(?:www\.)\S+|(?:[A-Za-z0-9.-]+\.(?:com|org|...))\S*`
with `re.IGNORECASE`.  The embedding follows the backtracking behaviour of
the Python engine: alternatives are tried in order at each position,
`[A-Za-z0-9.-]+` is greedy and backtracks to find the literal dot and a
top-level-domain alternative, and `\S+`/`\S*` are greedy runs of
non-whitespace.  `re.sub` scans positions left to right and restarts after
each match. -/

/-- Python `\s` restricted to its ASCII members, which is exact for the
texts considered here. -/
def isPyWS (c : Char) : Bool :=
  c = ' ' || c = '\t' || c = '\n' || c = '\r' || c = '\x0b' || c = '\x0c'

def isNonWS (c : Char) : Bool := !(isPyWS c)

/-- Python `str.strip()` (ASCII whitespace), on the character list. -/
def pyStrip (s : String) : String :=
  String.mk (((s.data.dropWhile isPyWS).reverse.dropWhile isPyWS).reverse)

/-- The character class `[A-Za-z0-9.-]`. -/
def isClassChar (c : Char) : Bool :=
  c.isAlpha || c.isDigit || c = '.' || c = '-'

/-- Case-insensitive literal match: `pat` (given in lowercase) against a
prefix of the input, returning the rest on success. -/
def matchCI : List Char → List Char → Option (List Char)
  | [], cs => some cs
  | _, [] => none
  | p :: ps, c :: cs => if c.toLower = p then matchCI ps cs else none

/-- Scheme alternatives in the engine's order: `https://` (the optional `s`
tried greedily first), `http://`, `ftp://`. -/
def schemePats : List (List Char) :=
  ["https://".data, "http://".data, "ftp://".data]

/-- First scheme alternative that matches and is followed by at least one
non-whitespace character (`\S+`); returns the total matched length. -/
def trySchemes : List (List Char) → List Char → Option Nat
  | [], _ => none
  | p :: ps, cs =>
    match matchCI p cs with
    | some rest =>
      let run := rest.takeWhile isNonWS
      if run.length = 0 then trySchemes ps cs else some (p.length + run.length)
    | none => trySchemes ps cs

/-- Branch `(?:www\.)\S+`. -/
def branchWww (cs : List Char) : Option Nat :=
  match matchCI "www.".data cs with
  | some rest =>
    let run := rest.takeWhile isNonWS
    if run.length = 0 then none else some (4 + run.length)
  | none => none

/-- The fixed top-level-domain alternatives, in the regex's order. -/
def tldPats : List (List Char) :=
  ["com", "org", "net", "edu", "gov", "ru", "ua", "by", "kz", "info",
   "biz", "io", "ai", "au", "uk", "de", "fr", "it", "es", "cz", "pl",
   "se", "no", "dk", "nl", "be", "ch", "jp", "cn", "kr", "br", "in"].map
    String.data

/-- First top-level domain that matches case-insensitively as a literal
prefix, returning its length. -/
def tryTlds : List (List Char) → List Char → Option Nat
  | [], _ => none
  | t :: ts, cs =>
    match matchCI t cs with
    | some _ => some t.length
    | none => tryTlds ts cs

/-- Backtracking for `[A-Za-z0-9.-]+\.(?:tld)\S*`: the class run tries `j`
characters from the greedy maximum downwards; at each `j` the next character
must be the literal dot, followed by a top-level domain and a greedy `\S*`
run. -/
def branchDomainTry (cs : List Char) : Nat → Option Nat
  | 0 => none
  | j + 1 =>
    match cs.drop (j + 1) with
    | c :: rest2 =>
      if c = '.' then
        match tryTlds tldPats rest2 with
        | some tl =>
          let after := (rest2.drop tl).takeWhile isNonWS
          some ((j + 1) + 1 + tl + after.length)
        | none => branchDomainTry cs j
      else branchDomainTry cs j
    | [] => branchDomainTry cs j

def branchDomain (cs : List Char) : Option Nat :=
  branchDomainTry cs (cs.takeWhile isClassChar).length

/-- Length of the URL match starting exactly at this position, trying the
three alternatives in the regex's order. -/
def urlMatchLen (cs : List Char) : Option Nat :=
  match trySchemes schemePats cs with
  | some n => some n
  | none =>
    match branchWww cs with
    | some n => some n
    | none => branchDomain cs

/-- The placeholder for the `i`-th match: `f"URLTOKEN_{idx}_X"`. -/
def placeholderStr (i : Nat) : String :=
  "URLTOKEN_" ++ Nat.repr i ++ "_X"

/-- The `re.sub` scan of `protect_urls`, with fuel equal to the remaining
input length (every match consumes at least one character, so the fuel
never runs out when initialised to the input length). -/
def protectGo : Nat → List Char → Nat → List Char × List (String × String)
  | _, [], _ => ([], [])
  | 0, cs, _ => (cs, [])
  | fuel + 1, c :: cs, idx =>
    match urlMatchLen (c :: cs) with
    | some n =>
      let pr := protectGo fuel ((c :: cs).drop n) (idx + 1)
      ((placeholderStr idx).data ++ pr.1,
        (placeholderStr idx, String.mk ((c :: cs).take n)) :: pr.2)
    | none =>
      let pr := protectGo fuel cs idx
      (c :: pr.1, pr.2)

/-- `protect_urls`: replace every URL match by its placeholder, returning
the masked sentence and the `(placeholder, url)` pairs in match order. -/
def protect_urls (s : String) : String × List (String × String) :=
  let pr := protectGo s.data.length s.data 0
  (String.mk pr.1, pr.2)

/-- Python `str.replace` for a non-empty pattern: replace all
non-overlapping occurrences, scanning left to right (fuel-based on the
input length). -/
def replaceAllCh (p r : List Char) : Nat → List Char → List Char
  | _, [] => []
  | 0, cs => cs
  | fuel + 1, c :: cs =>
    if p.isPrefixOf (c :: cs) && !p.isEmpty then
      r ++ replaceAllCh p r fuel ((c :: cs).drop p.length)
    else
      c :: replaceAllCh p r fuel cs

def pyReplace (s pat r : String) : String :=
  String.mk (replaceAllCh pat.data r.data s.data.length s.data)

/-- `restore_urls`: sequentially replace each recorded placeholder by its
URL, in recording order. -/
def restore_urls (s : String) (repls : List (String × String)) : String :=
  repls.foldl (fun acc pr => pyReplace acc pr.1 pr.2) s

/-- Substring test (used to state the round-trip claims). -/
def infixCheck (p : List Char) : List Char → Bool
  | [] => p.isEmpty
  | c :: cs => p.isPrefixOf (c :: cs) || infixCheck p cs

def hasSub (s pat : String) : Bool :=
  infixCheck pat.data s.data

/-! ## Bounded retry with exponential backoff
(embedding of `translate_text_with_retry`)

The remote capability is abstracted as `remote : Nat → Option String`: the
result of the call made at attempt number `a` (`none` models a raised
exception).  The embedding returns the final text together with the number
of calls issued and the list of sleeps performed, each
`base_sleep * 2 ^ (attempt - 1)` exactly as in the source. -/

def retryAux (remote : Nat → Option String) (text : String) (maxRetries : Nat)
    (base : ℚ) (attempt calls : Nat) (delays : List ℚ) :
    String × Nat × List ℚ :=
  match remote attempt with
  | some t => (t, calls + 1, delays)
  | none =>
    if h : attempt + 1 > maxRetries then (text, calls + 1, delays)
    else
      retryAux remote text maxRetries base (attempt + 1) (calls + 1)
        (delays ++ [base * 2 ^ attempt])
termination_by maxRetries + 1 - attempt
decreasing_by omega

/-- `translate_text_with_retry`, with attempt counter starting at 0. -/
def translate_text_with_retry (remote : Nat → Option String) (text : String)
    (maxRetries : Nat) (base : ℚ) : String × Nat × List ℚ :=
  retryAux remote text maxRetries base 0 0 []

/-! ## Checkpoint loading and merging (embedding of `load_or_init_output`)

The file at the output path is `none` when absent, `some none` when present
but unreadable (any read failure), and `some (some t)` when it parses as
table `t`.  The bare `except` around the merge is modelled by the two
failure sources it can see: an unreadable file, and the pandas `reindex`
raising on duplicate `ArticleID` labels. -/

/-- `for c in input_df.columns: if c not in out_df.columns: out_df[c] =
input_df[c]` — positional alignment, rows beyond the input get NaN. -/
def addColsAux (input : Table) : List String → Table → Table
  | [], ck => ck
  | c :: cs, ck =>
    addColsAux input cs
      (if c ∈ ck.cols then ck
       else
         { cols := ck.cols ++ [c],
           rows := ck.rows.enum.map
             (fun p => setCell p.2 c (getCell (input.rows.getD p.1 []) c)) })

def addMissingInputCols (ck input : Table) : Table :=
  addColsAux input input.cols ck

/-- Add the two output columns with value `""` when absent. -/
def ensureOutCols (t : Table) : Table :=
  let t1 :=
    if "ArticleTextEnglish" ∈ t.cols then t
    else
      { cols := t.cols ++ ["ArticleTextEnglish"],
        rows := t.rows.map (fun r => setCell r "ArticleTextEnglish" (some "")) }
  if "TranslationStatus" ∈ t1.cols then t1
  else
    { cols := t1.cols ++ ["TranslationStatus"],
      rows := t1.rows.map (fun r => setCell r "TranslationStatus" (some "")) }

/-- The row `reindex` creates for an id absent from the checkpoint: every
column NaN except the index column itself. -/
def allNoneRow (cols : List String) (idc : Cell) : Row :=
  cols.map (fun c => (c, if c = "ArticleID" then idc else none))

/-- `set_index("ArticleID").reindex(input_df["ArticleID"]).reset_index()`
for a checkpoint whose ids are unique. -/
def reindexTable (t : Table) (ids : List Cell) : Table :=
  { cols := "ArticleID" :: t.cols.erase "ArticleID",
    rows := ids.map (fun idc =>
      match t.rows.find? (fun r => getCell r "ArticleID" == idc) with
      | some r => setCell r "ArticleID" idc
      | none => allNoneRow t.cols idc) }

/-- `--overwrite`: blank both output columns on every row. -/
def blankTransCols (t : Table) : Table :=
  { cols := t.cols,
    rows := t.rows.map (fun r =>
      setCell (setCell r "ArticleTextEnglish" (some ""))
        "TranslationStatus" (some "")) }

/-- Fresh start: a copy of the input with the two output columns ensured. -/
def freshInit (input : Table) : Table :=
  ensureOutCols input

def load_or_init_output (input : Table) (disk : Option (Option Table))
    (overwrite : Bool) : Table :=
  match disk with
  | some (some ck) =>
    let ck2 := ensureOutCols (addMissingInputCols ck input)
    if "ArticleID" ∈ ck2.cols then
      if (idsOf ck2).Nodup then
        let r := reindexTable ck2 (idsOf input)
        if overwrite then blankTransCols r else r
      else freshInit input
    else if overwrite then blankTransCols ck2 else ck2
  | _ => freshInit input

/-! ## The orchestrating loop (embedding of `main`)

`Env` abstracts the effects the loop observes per article: the English text
`translate_article_text` would produce for row `i`, and whether the body of
the per-article `try` raises at the article level (`some msg`).  The
progress log is the list of `(id, outcome)` lines appended; `calls` records
the rows for which the translator was invoked.  An interrupt fires between
loop iterations (or just before the final save) after the given number of
completed iterations, modelling `KeyboardInterrupt`. -/

structure Env where
  translateArticle : Nat → String
  raises : Nat → Option String

structure Config where
  overwrite : Bool
  startIdx : Int
  maxRows : Option Nat
  ckptEvery : Int

structure RunCtx where
  ow : Bool
  ckEvery : Int
  doneMask : List Bool
  env : Env

structure LoopState where
  table : Table
  disk : Option (Option Table)
  plog : List (String × String)
  calls : List Nat
  anyChanges : Bool
  sinceCkpt : Nat

/-- One entry of the resume mask:
`out_df["ArticleTextEnglish"].astype(str).str.strip() != ""`
(note that a NaN cell prints as `"nan"` and therefore counts as done). -/
def doneMaskOf (r : Row) : Bool :=
  pyStrip (cellToStr (getCell r "ArticleTextEnglish")) != ""

def initialMask (ow : Bool) (t : Table) : List Bool :=
  if ow then t.rows.map (fun _ => false) else t.rows.map doneMaskOf

/-- The id used in progress messages for row `i`. -/
def rowArtId (t : Table) (i : Nat) : String :=
  if "ArticleID" ∈ t.cols then cellToStr (getCell (t.rows.getD i []) "ArticleID")
  else Nat.repr i

/-- `pd.isna(src_text) or not str(src_text).strip()`. -/
def isBlankCell : Cell → Bool
  | none => true
  | some s => pyStrip s == ""

/-- Update the two output cells of row `i`. -/
def updRow (t : Table) (i : Nat) (ate ts : Cell) : Table :=
  { cols := t.cols,
    rows := t.rows.set i
      (setCell (setCell (t.rows.getD i []) "ArticleTextEnglish" ate)
        "TranslationStatus" ts) }

/-- `if processed_since_ckpt >= checkpoint_every: write + reset flags`. -/
def maybeCkpt (ctx : RunCtx) (st : LoopState) : LoopState :=
  if (st.sinceCkpt : Int) ≥ ctx.ckEvery then
    { st with disk := some (some st.table), sinceCkpt := 0, anyChanges := false }
  else st

/-- One iteration of the per-article loop. -/
def processIndex (ctx : RunCtx) (st : LoopState) (i : Nat) : LoopState :=
  if !ctx.ow && ctx.doneMask.getD i false then st
  else
    let row := st.table.rows.getD i []
    let artId := rowArtId st.table i
    let st1 :=
      if isBlankCell (getCell row "ArticleText") then
        { st with
          table := updRow st.table i (some "") (some "empty"),
          plog := st.plog ++ [(artId, "empty")],
          anyChanges := true }
      else
        match ctx.env.raises i with
        | none =>
          { st with
            table := updRow st.table i (some (ctx.env.translateArticle i)) (some "ok"),
            plog := st.plog ++ [(artId, "ok")],
            calls := st.calls ++ [i],
            anyChanges := true }
        | some e =>
          { st with
            table := updRow st.table i
              (some (cellToStr (getCell row "ArticleText")))
              (some ("error: " ++ e)),
            plog := st.plog ++ [(artId, "error " ++ e)] }
    maybeCkpt ctx { st1 with sinceCkpt := st1.sinceCkpt + 1 }

/-- The loop over the visited indices; the second component is `true` when
an interrupt fired (`intr = some k` fires after `k` completed iterations,
`k` past the end firing just before the final save never triggers). -/
def mainLoop (ctx : RunCtx) : List Nat → LoopState → Option Nat → LoopState × Bool
  | [], st, intr => if intr = some 0 then (st, true) else (st, false)
  | i :: rest, st, intr =>
    if intr = some 0 then (st, true)
    else mainLoop ctx rest (processIndex ctx st i) (intr.map (· - 1))

/-- `start = max(start_idx, 0)`, `end = min(start + max_rows, total)`. -/
def runIndices (cfg : Config) (total : Nat) : List Nat :=
  let start := (max cfg.startIdx 0).toNat
  let endL :=
    match cfg.maxRows with
    | none => total
    | some m => min (start + m) total
  List.range' start (endL - start)

/-- State of the run at the end of the loop (or at the interrupt). -/
def runLoopState (input : Table) (disk0 : Option (Option Table)) (cfg : Config)
    (env : Env) (intr : Option Nat) : LoopState × Bool :=
  let out0 := load_or_init_output input disk0 cfg.overwrite
  let ctx : RunCtx :=
    { ow := cfg.overwrite, ckEvery := cfg.ckptEvery,
      doneMask := initialMask cfg.overwrite out0, env := env }
  mainLoop ctx (runIndices cfg out0.rows.length)
    { table := out0, disk := disk0, plog := [], calls := [],
      anyChanges := false, sinceCkpt := 0 } intr

structure RunResult where
  table : Table
  disk : Option (Option Table)
  plog : List (String × String)
  calls : List Nat
  exitCode : Nat

/-- The whole of `main` under the `KeyboardInterrupt` handler: on interrupt
the final-save block is never reached and the process exits with 130; on
natural completion the final save runs when something changed since the
last save or no output file exists, and the process exits with 0. -/
def runMain (input : Table) (disk0 : Option (Option Table)) (cfg : Config)
    (env : Env) (intr : Option Nat) : RunResult :=
  let p := runLoopState input disk0 cfg env intr
  if p.2 then
    { table := p.1.table, disk := p.1.disk, plog := p.1.plog,
      calls := p.1.calls, exitCode := 130 }
  else
    { table := p.1.table,
      disk := if p.1.anyChanges || p.1.disk.isNone
              then some (some p.1.table) else p.1.disk,
      plog := p.1.plog, calls := p.1.calls, exitCode := 0 }

/-! ## Atomic checkpoint writing (embedding of `write_checkpoint_safely`)

`df.to_csv(tmp)` is a sequence of writes to the temporary sibling path,
leaving truncated contents there until the last write completes;
`os.replace(tmp, out)` atomically moves the temporary file onto the final
path.  A crash is an arbitrary prefix of this operation sequence. -/

inductive CkFile where
  | truncated : Table → Nat → CkFile
  | complete : Table → CkFile
deriving DecidableEq

structure FS where
  tmpF : Option CkFile
  finalF : Option CkFile
deriving DecidableEq

inductive FsOp where
  | writeTmp : CkFile → FsOp
  | renameTmpToFinal : FsOp
deriving DecidableEq

def applyOp (fs : FS) : FsOp → FS
  | .writeTmp c => { fs with tmpF := some c }
  | .renameTmpToFinal => { tmpF := none, finalF := fs.tmpF }

def runOps (fs : FS) (ops : List FsOp) : FS :=
  ops.foldl applyOp fs

/-- The operation sequence of `write_checkpoint_safely df out`: `steps`
intermediate truncated states of the temporary file, the completed
temporary file, then the atomic rename onto the final path. -/
def writeCheckpointOps (df : Table) (steps : Nat) : List FsOp :=
  (List.range steps).map (fun k => FsOp.writeTmp (CkFile.truncated df k)) ++
    [FsOp.writeTmp (CkFile.complete df), FsOp.renameTmpToFinal]

/-! ## Concrete instances used to settle the claims on explicit inputs -/

def colsIT : List String := ["ArticleID", "ArticleText"]

def inRow (idv txt : String) : Row :=
  [("ArticleID", some idv), ("ArticleText", some txt)]

def sampleIn1 : Table := { cols := colsIT, rows := [inRow "0" "Hello."] }

def sampleIn2 : Table :=
  { cols := colsIT, rows := [inRow "0" "Hello.", inRow "1" "World."] }

def sampleBlank : Table := { cols := colsIT, rows := [inRow "7" "   "] }

def cfgDef : Config :=
  { overwrite := false, startIdx := 0, maxRows := none, ckptEvery := 20 }

def envOk : Env := { translateArticle := fun _ => "EN", raises := fun _ => none }

def envBoom : Env :=
  { translateArticle := fun _ => "EN", raises := fun _ => some "boom" }

/-- A checkpoint from a prior run in which article "0" is translated. -/
def ckDone : Table :=
  { cols := ["ArticleID", "ArticleText", "ArticleTextEnglish", "TranslationStatus"],
    rows := [[("ArticleID", some "0"), ("ArticleText", some "Hello."),
              ("ArticleTextEnglish", some "X"), ("TranslationStatus", some "ok")]] }

/-- A sentence whose first URL itself contains a placeholder-shaped token
and whose body therefore collides with the masking scheme. -/
def urlSent : String := "http://a.com/URLTOKEN_1_X and www.b.com"

/-- A loop state over `ckDone`, with its row masked as already done. -/
def stDone : LoopState :=
  { table := ckDone, disk := none, plog := [], calls := [],
    anyChanges := false, sinceCkpt := 0 }

def ctxSkip : RunCtx :=
  { ow := false, ckEvery := 20, doneMask := [true], env := envOk }

/-- A loop state over a fresh table whose only row has blank source text. -/
def stBlank : LoopState :=
  { table := freshInit sampleBlank, disk := none, plog := [], calls := [],
    anyChanges := false, sinceCkpt := 0 }

def ctxBlank : RunCtx :=
  { ow := false, ckEvery := 20, doneMask := [false], env := envOk }

/-- A checkpoint with a duplicated `ArticleID`, on which the pandas
`reindex` raises. -/
def ckDup : Table :=
  { cols := ["ArticleID", "ArticleText", "ArticleTextEnglish", "TranslationStatus"],
    rows := [[("ArticleID", some "0"), ("ArticleTextEnglish", some "X")],
             [("ArticleID", some "0"), ("ArticleTextEnglish", some "Y")]] }

/-! ## Basic lemmas about rows and cells -/

theorem getCell_setCell_eq (r : Row) (c : String) (v : Cell) :
    getCell (setCell r c v) c = v := by
  induction r with
  | nil => simp [setCell, getCell, List.lookup_cons]
  | cons kv rest ih =>
    obtain ⟨k, w⟩ := kv
    by_cases h : k = c
    · subst h
      simp [setCell, getCell, List.lookup_cons]
    · simp only [setCell, if_neg h, getCell, List.lookup_cons,
        beq_false_of_ne (Ne.symm h)]
      simpa [getCell] using ih

theorem getCell_setCell_ne (r : Row) (c c' : String) (v : Cell) (h : c' ≠ c) :
    getCell (setCell r c v) c' = getCell r c' := by
  induction r with
  | nil => simp [setCell, getCell, List.lookup_cons, beq_false_of_ne h]
  | cons kv rest ih =>
    obtain ⟨k, w⟩ := kv
    by_cases hk : k = c
    · subst hk
      simp [setCell, getCell, List.lookup_cons, beq_false_of_ne h]
    · by_cases hk' : c' = k
      · subst hk'
        simp [setCell, if_neg hk, getCell, List.lookup_cons]
      · simp only [setCell, if_neg hk, getCell, List.lookup_cons,
          beq_false_of_ne hk']
        simpa [getCell] using ih

theorem lookup_map_col (g : String → Cell) (cols : List String) (c : String) :
    List.lookup c (cols.map (fun c' => (c', g c'))) =
      if c ∈ cols then some (g c) else none := by
  induction cols with
  | nil => simp
  | cons k rest ih =>
    by_cases h : c = k
    · subst h
      simp [List.lookup_cons]
    · simp [List.lookup_cons, beq_false_of_ne h, ih, h]

theorem getCell_allNoneRow (cols : List String) (idc : Cell) (c : String) :
    getCell (allNoneRow cols idc) c =
      if c ∈ cols then (if c = "ArticleID" then idc else none) else none := by
  simp only [allNoneRow, getCell, lookup_map_col]
  by_cases h : c ∈ cols
  · by_cases h2 : c = "ArticleID"
    · subst h2
      simp [h]
    · simp [h, h2]
  · simp [h]

theorem getCell_allNoneRow_id (cols : List String) (idc : Cell)
    (h : "ArticleID" ∈ cols) :
    getCell (allNoneRow cols idc) "ArticleID" = idc := by
  simp [getCell_allNoneRow, h]

theorem getCell_allNoneRow_ne (cols : List String) (idc : Cell) (c : String)
    (h : c ≠ "ArticleID") :
    getCell (allNoneRow cols idc) c = none := by
  by_cases hm : c ∈ cols <;> simp [getCell_allNoneRow, hm, h]

theorem getD_set_self {α : Type} (l : List α) (i : Nat) (x d : α)
    (h : i < l.length) : (l.set i x).getD i d = x := by
  induction l generalizing i with
  | nil => simp at h
  | cons a t ih =>
    cases i with
    | zero => simp
    | succ j =>
      simp only [List.set_cons_succ, List.getD_cons_succ]
      exact ih j (by simpa using h)

theorem getD_map {α β : Type} (f : α → β) (l : List α) (i : Nat) (d : β) (d' : α)
    (h : i < l.length) : (l.map f).getD i d = f (l.getD i d') := by
  induction l generalizing i with
  | nil => simp at h
  | cons a t ih =>
    cases i with
    | zero => simp
    | succ j =>
      simp only [List.map_cons, List.getD_cons_succ]
      exact ih j (by simpa using h)

theorem map_set_eq {α β : Type} (f : α → β) (l : List α) (i : Nat) (x d : α)
    (h : f x = f (l.getD i d)) : (l.set i x).map f = l.map f := by
  induction l generalizing i with
  | nil => simp
  | cons a t ih =>
    cases i with
    | zero => simp_all
    | succ j =>
      simp only [List.set_cons_succ, List.map_cons]
      rw [ih j (by simpa using h)]

/-! ## The id column through the merge operations (towards C5) -/

theorem ids_map_rows (f : Row → Row) (rows : List Row)
    (h : ∀ r, getCell (f r) "ArticleID" = getCell r "ArticleID") :
    (rows.map f).map (fun r => getCell r "ArticleID") =
      rows.map (fun r => getCell r "ArticleID") := by
  induction rows with
  | nil => rfl
  | cons r rest ih => simp [h, ih]

theorem idsOf_ensureOutCols (t : Table) : idsOf (ensureOutCols t) = idsOf t := by
  have hne1 : "ArticleID" ≠ "ArticleTextEnglish" := by decide
  have hne2 : "ArticleID" ≠ "TranslationStatus" := by decide
  simp only [ensureOutCols]
  by_cases h1 : "ArticleTextEnglish" ∈ t.cols <;>
    by_cases h2 : "TranslationStatus" ∈ t.cols <;>
      simp [h1, h2, idsOf, ids_map_rows, getCell_setCell_ne, hne1, hne2,
        List.mem_append]

theorem idsOf_blankTransCols (t : Table) :
    idsOf (blankTransCols t) = idsOf t := by
  simp only [blankTransCols, idsOf]
  exact ids_map_rows _ _ (fun r => by
    rw [getCell_setCell_ne _ _ _ _ (by decide),
      getCell_setCell_ne _ _ _ _ (by decide)])

theorem idsOf_reindexTable (t : Table) (L : List Cell)
    (h : "ArticleID" ∈ t.cols) : idsOf (reindexTable t L) = L := by
  simp only [reindexTable, idsOf]
  induction L with
  | nil => rfl
  | cons idc rest ih =>
    simp only [List.map_cons, ih]
    cases hf : t.rows.find? (fun r => getCell r "ArticleID" == idc) with
    | some r => simp [hf, getCell_setCell_eq]
    | none => simp [hf, getCell_allNoneRow_id _ _ h]

theorem cols_addColsAux_mono (input : Table) (cs : List String) (ck : Table)
    (c : String) (h : c ∈ ck.cols) : c ∈ (addColsAux input cs ck).cols := by
  induction cs generalizing ck with
  | nil => simpa [addColsAux] using h
  | cons c' rest ih =>
    simp only [addColsAux]
    by_cases hc : c' ∈ ck.cols
    · simpa [hc] using ih _ h
    · simp only [hc, if_false]
      exact ih _ (List.mem_append_left _ h)

theorem mem_cols_addColsAux (input : Table) (cs : List String) (ck : Table)
    (c : String) (h : c ∈ cs) : c ∈ (addColsAux input cs ck).cols := by
  induction cs generalizing ck with
  | nil => cases h
  | cons c' rest ih =>
    rcases List.mem_cons.mp h with rfl | hm
    · simp only [addColsAux]
      apply cols_addColsAux_mono
      by_cases hc : c ∈ ck.cols
      · simp [hc]
      · simp [hc]
    · simp only [addColsAux]
      exact ih _ hm

theorem mem_cols_ensureOutCols (t : Table) (c : String) (h : c ∈ t.cols) :
    c ∈ (ensureOutCols t).cols := by
  simp only [ensureOutCols]
  by_cases h1 : "ArticleTextEnglish" ∈ t.cols <;>
    by_cases h2 : "TranslationStatus" ∈ t.cols <;>
      simp_all [List.mem_append]

theorem mem_cols_addMissing (ck input : Table) (c : String)
    (h : c ∈ input.cols) : c ∈ (addMissingInputCols ck input).cols :=
  mem_cols_addColsAux input input.cols ck c h

theorem idsOf_load_or_init (input : Table) (d : Option (Option Table))
    (ow : Bool) (hart : "ArticleID" ∈ input.cols) :
    idsOf (load_or_init_output input d ow) = idsOf input := by
  match d with
  | none => simp [load_or_init_output, freshInit, idsOf_ensureOutCols]
  | some none => simp [load_or_init_output, freshInit, idsOf_ensureOutCols]
  | some (some ck) =>
    have hA : "ArticleID" ∈ (ensureOutCols (addMissingInputCols ck input)).cols :=
      mem_cols_ensureOutCols _ _ (mem_cols_addMissing _ _ _ hart)
    simp only [load_or_init_output, hA, if_true]
    by_cases hnd : (idsOf (ensureOutCols (addMissingInputCols ck input))).Nodup
    · rw [if_pos hnd]
      cases ow <;> simp [idsOf_blankTransCols, idsOf_reindexTable _ _ hA]
    · rw [if_neg hnd]
      simp [freshInit, idsOf_ensureOutCols]

/-! ## Lemmas about the orchestrating loop -/

theorem idsOf_updRow (t : Table) (i : Nat) (a b : Cell) :
    idsOf (updRow t i a b) = idsOf t := by
  simp only [updRow, idsOf]
  apply map_set_eq _ _ _ _ ([] : Row)
  rw [getCell_setCell_ne _ _ _ _ (by decide),
    getCell_setCell_ne _ _ _ _ (by decide)]

theorem maybeCkpt_table (ctx : RunCtx) (st : LoopState) :
    (maybeCkpt ctx st).table = st.table := by
  simp only [maybeCkpt]
  split <;> rfl

theorem maybeCkpt_plog (ctx : RunCtx) (st : LoopState) :
    (maybeCkpt ctx st).plog = st.plog := by
  simp only [maybeCkpt]
  split <;> rfl

theorem maybeCkpt_calls (ctx : RunCtx) (st : LoopState) :
    (maybeCkpt ctx st).calls = st.calls := by
  simp only [maybeCkpt]
  split <;> rfl

theorem maybeCkpt_disk_of (ctx : RunCtx) (s : LoopState)
    (d : Option (Option Table)) (h : s.disk = d) :
    (maybeCkpt ctx s).disk = d ∨
      (maybeCkpt ctx s).disk = some (some (maybeCkpt ctx s).table) := by
  simp only [maybeCkpt]
  split
  · exact Or.inr rfl
  · exact Or.inl h

/-- A row whose resume-mask entry is set is skipped with the whole loop
state unchanged (in particular nothing is appended to the progress log). -/
theorem processIndex_skip (ctx : RunCtx) (st : LoopState) (i : Nat)
    (how : ctx.ow = false) (hm : ctx.doneMask.getD i false = true) :
    processIndex ctx st i = st := by
  simp only [processIndex, how, hm]
  simp

theorem processIndex_table_ids (ctx : RunCtx) (st : LoopState) (i : Nat) :
    idsOf (processIndex ctx st i).table = idsOf st.table := by
  simp only [processIndex]
  split
  · rfl
  · rw [maybeCkpt_table]
    split
    · exact idsOf_updRow _ _ _ _
    · cases ctx.env.raises i <;> exact idsOf_updRow _ _ _ _

theorem processIndex_disk_cases (ctx : RunCtx) (st : LoopState) (i : Nat) :
    (processIndex ctx st i).disk = st.disk ∨
      (processIndex ctx st i).disk =
        some (some (processIndex ctx st i).table) := by
  simp only [processIndex]
  split
  · exact Or.inl rfl
  · apply maybeCkpt_disk_of
    split
    · rfl
    · cases ctx.env.raises i <;> rfl

theorem mainLoop_none_snd (ctx : RunCtx) (l : List Nat) (st : LoopState) :
    (mainLoop ctx l st none).2 = false := by
  induction l generalizing st with
  | nil => simp [mainLoop]
  | cons i rest ih => simp [mainLoop, ih]

theorem mainLoop_inv (ctx : RunCtx) (I : List Cell) (d0 : Option (Option Table)) :
    ∀ (l : List Nat) (st : LoopState) (intr : Option Nat),
      idsOf st.table = I →
      (st.disk = d0 ∨ ∃ t, st.disk = some (some t) ∧ idsOf t = I) →
      idsOf (mainLoop ctx l st intr).1.table = I ∧
        ((mainLoop ctx l st intr).1.disk = d0 ∨
          ∃ t, (mainLoop ctx l st intr).1.disk = some (some t) ∧ idsOf t = I) := by
  intro l
  induction l with
  | nil =>
    intro st intr h1 h2
    simp only [mainLoop]
    split <;> exact ⟨h1, h2⟩
  | cons i rest ih =>
    intro st intr h1 h2
    simp only [mainLoop]
    split
    · exact ⟨h1, h2⟩
    · apply ih
      · rw [processIndex_table_ids]
        exact h1
      · rcases processIndex_disk_cases ctx st i with hd | hd
        · rw [hd]
          exact h2
        · exact Or.inr ⟨_, hd, by rw [processIndex_table_ids]; exact h1⟩

/-! ## Lemmas about URL masking -/

theorem protectGo_placeholders :
    ∀ (fuel : Nat) (cs : List Char) (idx : Nat),
      ((protectGo fuel cs idx).2).map Prod.fst =
        (List.range' idx ((protectGo fuel cs idx).2).length).map placeholderStr := by
  intro fuel
  induction fuel with
  | zero =>
    intro cs idx
    cases cs with
    | nil => simp [protectGo.eq_1]
    | cons c rest => simp [protectGo.eq_2]
  | succ fuel ih =>
    intro cs idx
    cases cs with
    | nil => simp [protectGo.eq_1]
    | cons c rest =>
      rw [protectGo.eq_3]
      cases h : urlMatchLen (c :: rest) with
      | some n =>
        simp only [h, List.map_cons, List.length_cons, List.range'_succ]
        simp [ih]
      | none =>
        simp only [h]
        exact ih rest idx

theorem protectGo_no_match :
    ∀ (fuel : Nat) (cs : List Char) (idx : Nat),
      (protectGo fuel cs idx).2 = [] → (protectGo fuel cs idx).1 = cs := by
  intro fuel
  induction fuel with
  | zero =>
    intro cs idx h
    cases cs with
    | nil => simp [protectGo.eq_1]
    | cons c rest => simp [protectGo.eq_2]
  | succ fuel ih =>
    intro cs idx h
    cases cs with
    | nil => simp [protectGo.eq_1]
    | cons c rest =>
      rw [protectGo.eq_3] at h ⊢
      cases hm : urlMatchLen (c :: rest) with
      | some n => simp [hm] at h
      | none =>
        simp only [hm] at h ⊢
        rw [ih rest idx h]

/-! ## Lemmas about the retry wrapper -/

theorem retryAux_calls_le (remote : Nat → Option String) (text : String)
    (maxRetries : Nat) (base : ℚ) :
    ∀ (attempt calls : Nat) (delays : List ℚ), attempt ≤ maxRetries →
      (retryAux remote text maxRetries base attempt calls delays).2.1 ≤
        calls + (maxRetries + 1 - attempt) := by
  intro attempt calls delays
  induction attempt, calls, delays using retryAux.induct remote text maxRetries base with
  | case1 attempt calls delays t hr =>
    intro ha
    rw [retryAux.eq_def, hr]
    simp only []
    omega
  | case2 attempt calls delays hr hgt =>
    intro ha
    have hstep : retryAux remote text maxRetries base attempt calls delays =
        (text, calls + 1, delays) := by
      rw [retryAux.eq_def, hr]
      exact dif_pos hgt
    rw [hstep]
    simp only []
    omega
  | case3 attempt calls delays hr hgt ih =>
    intro ha
    have hstep : retryAux remote text maxRetries base attempt calls delays =
        retryAux remote text maxRetries base (attempt + 1) (calls + 1)
          (delays ++ [base * 2 ^ attempt]) := by
      rw [retryAux.eq_def, hr]
      exact dif_neg hgt
    rw [hstep]
    have := ih (by omega)
    omega

theorem retryAux_delays (remote : Nat → Option String) (text : String)
    (maxRetries : Nat) (base : ℚ) :
    ∀ (attempt calls : Nat) (delays : List ℚ),
      ∃ k, (retryAux remote text maxRetries base attempt calls delays).2.2 =
        delays ++ (List.range' attempt k).map (fun j => base * 2 ^ j) := by
  intro attempt calls delays
  induction attempt, calls, delays using retryAux.induct remote text maxRetries base with
  | case1 attempt calls delays t hr =>
    exact ⟨0, by rw [retryAux.eq_def, hr]; simp⟩
  | case2 attempt calls delays hr hgt =>
    refine ⟨0, ?_⟩
    have hstep : retryAux remote text maxRetries base attempt calls delays =
        (text, calls + 1, delays) := by
      rw [retryAux.eq_def, hr]
      exact dif_pos hgt
    rw [hstep]
    simp
  | case3 attempt calls delays hr hgt ih =>
    obtain ⟨k, hk⟩ := ih
    refine ⟨k + 1, ?_⟩
    have hstep : retryAux remote text maxRetries base attempt calls delays =
        retryAux remote text maxRetries base (attempt + 1) (calls + 1)
          (delays ++ [base * 2 ^ attempt]) := by
      rw [retryAux.eq_def, hr]
      exact dif_neg hgt
    rw [hstep, hk, List.range'_succ]
    simp

theorem retryAux_allfail (remote : Nat → Option String) (text : String)
    (maxRetries : Nat) (base : ℚ) :
    ∀ (attempt calls : Nat) (delays : List ℚ),
      (∀ j, attempt ≤ j → j ≤ maxRetries → remote j = none) →
      attempt ≤ maxRetries →
      (retryAux remote text maxRetries base attempt calls delays).1 = text ∧
        (retryAux remote text maxRetries base attempt calls delays).2.1 =
          calls + (maxRetries + 1 - attempt) := by
  intro attempt calls delays
  induction attempt, calls, delays using retryAux.induct remote text maxRetries base with
  | case1 attempt calls delays t hr =>
    intro hall ha
    rw [hall attempt le_rfl ha] at hr
    cases hr
  | case2 attempt calls delays hr hgt =>
    intro hall ha
    have hstep : retryAux remote text maxRetries base attempt calls delays =
        (text, calls + 1, delays) := by
      rw [retryAux.eq_def, hr]
      exact dif_pos hgt
    rw [hstep]
    refine ⟨rfl, ?_⟩
    simp only []
    omega
  | case3 attempt calls delays hr hgt ih =>
    intro hall ha
    have hstep : retryAux remote text maxRetries base attempt calls delays =
        retryAux remote text maxRetries base (attempt + 1) (calls + 1)
          (delays ++ [base * 2 ^ attempt]) := by
      rw [retryAux.eq_def, hr]
      exact dif_neg hgt
    rw [hstep]
    have := ih (fun j h1 h2 => hall j (by omega) h2) (by omega)
    exact ⟨this.1, by omega⟩

/-! ## Lemmas about the checkpoint-write operation sequence -/

theorem runOps_writeTmp_only (l : List FsOp)
    (h : ∀ op ∈ l, ∃ c, op = FsOp.writeTmp c) :
    ∀ fs : FS, (runOps fs l).finalF = fs.finalF := by
  induction l with
  | nil => intro fs; rfl
  | cons op rest ih =>
    intro fs
    obtain ⟨c, rfl⟩ := h op (List.mem_cons_self op rest)
    simp only [runOps, List.foldl_cons]
    exact ih (fun o ho => h o (List.mem_cons_of_mem _ ho)) _

theorem writeCheckpointOps_split (df : Table) (steps : Nat) :
    writeCheckpointOps df steps =
      ((List.range steps).map (fun k => FsOp.writeTmp (CkFile.truncated df k)) ++
        [FsOp.writeTmp (CkFile.complete df)]) ++ [FsOp.renameTmpToFinal] := by
  simp [writeCheckpointOps]

theorem runOps_writeCheckpointOps_final (df : Table) (steps : Nat) (fs0 : FS) :
    (runOps fs0 (writeCheckpointOps df steps)).finalF =
      some (CkFile.complete df) := by
  rw [writeCheckpointOps_split, runOps, List.foldl_append, List.foldl_append]
  rfl

/-! ## Claim theorems -/

/-- C3 (confirmed): `translate_text_with_retry` issues at most
`maxRetries + 1` calls to the remote capability; the sleep before the k-th
retry is `base_sleep * 2 ^ (k - 1)` (the delay list is exactly
`[base * 2^0, base * 2^1, ...]` in order); and when every attempt raises,
the call returns the original input text unchanged after exactly
`maxRetries + 1` calls rather than raising. -/
theorem c3_retry_bound (remote : Nat → Option String) (text : String)
    (maxRetries : Nat) (base : ℚ) :
    (translate_text_with_retry remote text maxRetries base).2.1 ≤ maxRetries + 1 ∧
    (translate_text_with_retry remote text maxRetries base).2.2 =
      (List.range (translate_text_with_retry remote text maxRetries base).2.2.length).map
        (fun j => base * 2 ^ j) ∧
    ((∀ j, j ≤ maxRetries → remote j = none) →
      (translate_text_with_retry remote text maxRetries base).1 = text ∧
      (translate_text_with_retry remote text maxRetries base).2.1 = maxRetries + 1) := by
  refine ⟨?_, ?_, ?_⟩
  · have h := retryAux_calls_le remote text maxRetries base 0 0 [] (by omega)
    simp only [translate_text_with_retry]
    omega
  · obtain ⟨k, hk⟩ := retryAux_delays remote text maxRetries base 0 0 []
    simp only [translate_text_with_retry] at hk ⊢
    rw [hk]
    simp [List.range_eq_range']
  · intro hall
    have h := retryAux_allfail remote text maxRetries base 0 0 []
      (fun j _ h2 => hall j h2) (by omega)
    simp only [translate_text_with_retry]
    exact ⟨h.1, by omega⟩

theorem c3_retry_bound_witness :
    (translate_text_with_retry (fun _ => none) "hi" 2 (1 / 2)).1 = "hi" ∧
    (translate_text_with_retry (fun _ => none) "hi" 2 (1 / 2)).2.1 = 2 + 1 :=
  (c3_retry_bound (fun _ => none) "hi" 2 (1 / 2)).2.2 (fun _ _ => rfl)

/-- C8 (confirmed): every checkpoint save writes the full snapshot to a
temporary sibling path and only then atomically renames it onto the final
path: after any prefix of the operation sequence (a crash point) the final
path holds either the previously committed content, untouched, or the
complete new snapshot — never a truncated one — and the completed sequence
commits the complete snapshot. -/
theorem c8_checkpoint_atomic (df : Table) (steps : Nat) (fs0 : FS) (k : Nat) :
    ((runOps fs0 ((writeCheckpointOps df steps).take k)).finalF = fs0.finalF ∨
      (runOps fs0 ((writeCheckpointOps df steps).take k)).finalF =
        some (CkFile.complete df)) ∧
    (runOps fs0 (writeCheckpointOps df steps)).finalF =
      some (CkFile.complete df) := by
  refine ⟨?_, runOps_writeCheckpointOps_final df steps fs0⟩
  by_cases hk : k ≤ steps + 1
  · left
    rw [writeCheckpointOps_split,
      List.take_append_of_le_length (by simp; omega)]
    apply runOps_writeTmp_only
    intro op hop
    have hmem := List.mem_of_mem_take hop
    rcases List.mem_append.mp hmem with hA | hw
    · obtain ⟨j, _, rfl⟩ := List.mem_map.mp hA
      exact ⟨_, rfl⟩
    · refine ⟨CkFile.complete df, ?_⟩
      simpa using hw
  · right
    rw [List.take_of_length_le (by simp [writeCheckpointOps]; omega)]
    exact runOps_writeCheckpointOps_final df steps fs0

/-- C5 (confirmed): for every input table (with its `ArticleID` column, as
`load_input` guarantees) and every prior checkpoint file — absent,
unreadable, or holding any table — the merged state has exactly the input's
id column, in input row order (so ids occurring only in the checkpoint are
dropped, and when the input ids are distinct each occurs exactly once); the
table held in memory at the end of any run still has exactly that id
column, and the checkpoint file after the run is either untouched or a
snapshot whose ids are exactly the input's. -/
theorem c5_ids_invariant (input : Table) (disk0 : Option (Option Table))
    (ow : Bool) (cfg : Config) (env : Env) (intr : Option Nat)
    (hart : "ArticleID" ∈ input.cols) :
    idsOf (load_or_init_output input disk0 ow) = idsOf input ∧
    ((idsOf input).Nodup → (idsOf (load_or_init_output input disk0 ow)).Nodup) ∧
    idsOf (runMain input disk0 cfg env intr).table = idsOf input ∧
    ((runMain input disk0 cfg env intr).disk = disk0 ∨
      ∃ t, (runMain input disk0 cfg env intr).disk = some (some t) ∧
        idsOf t = idsOf input) := by
  have hload := idsOf_load_or_init input disk0 ow hart
  have hload' := idsOf_load_or_init input disk0 cfg.overwrite hart
  have hinv := mainLoop_inv
    { ow := cfg.overwrite, ckEvery := cfg.ckptEvery,
      doneMask := initialMask cfg.overwrite (load_or_init_output input disk0 cfg.overwrite),
      env := env }
    (idsOf input) disk0
    (runIndices cfg (load_or_init_output input disk0 cfg.overwrite).rows.length)
    { table := load_or_init_output input disk0 cfg.overwrite, disk := disk0,
      plog := [], calls := [], anyChanges := false, sinceCkpt := 0 }
    intr hload' (Or.inl rfl)
  have hrun : runLoopState input disk0 cfg env intr =
      mainLoop
        { ow := cfg.overwrite, ckEvery := cfg.ckptEvery,
          doneMask := initialMask cfg.overwrite (load_or_init_output input disk0 cfg.overwrite),
          env := env }
        (runIndices cfg (load_or_init_output input disk0 cfg.overwrite).rows.length)
        { table := load_or_init_output input disk0 cfg.overwrite, disk := disk0,
          plog := [], calls := [], anyChanges := false, sinceCkpt := 0 } intr := rfl
  rw [← hrun] at hinv
  obtain ⟨hids, hdisk⟩ := hinv
  refine ⟨hload, fun h => hload ▸ h, ?_, ?_⟩
  · by_cases hp : (runLoopState input disk0 cfg env intr).2 = true
    · simpa [runMain, hp] using hids
    · simpa [runMain, hp] using hids
  · by_cases hp : (runLoopState input disk0 cfg env intr).2 = true
    · simpa [runMain, hp] using hdisk
    · by_cases hb : ((runLoopState input disk0 cfg env intr).1.anyChanges ||
          (runLoopState input disk0 cfg env intr).1.disk.isNone) = true
      · refine Or.inr ⟨(runLoopState input disk0 cfg env intr).1.table, ?_, hids⟩
        simp [runMain, hp, hb]
      · simpa [runMain, hp, hb] using hdisk

/-- C7 (confirmed): when the loop visits an article whose source text is
missing, empty or whitespace-only (the article being within the visited
range and not withheld by the resume mask), it sets `ArticleTextEnglish` to
`""` and `TranslationStatus` to `"empty"`, logs an `empty` outcome, and
makes no call to the translation client for that article. -/
theorem c7_blank_handling (ctx : RunCtx) (st : LoopState) (i : Nat)
    (hi : i < st.table.rows.length)
    (hskip : (!ctx.ow && ctx.doneMask.getD i false) = false)
    (hblank : isBlankCell (getCell (st.table.rows.getD i []) "ArticleText") = true) :
    getCell ((processIndex ctx st i).table.rows.getD i []) "ArticleTextEnglish" =
      some "" ∧
    getCell ((processIndex ctx st i).table.rows.getD i []) "TranslationStatus" =
      some "empty" ∧
    (processIndex ctx st i).calls = st.calls ∧
    (processIndex ctx st i).plog = st.plog ++ [(rowArtId st.table i, "empty")] := by
  have hred : processIndex ctx st i =
      maybeCkpt ctx
        { table := updRow st.table i (some "") (some "empty"),
          disk := st.disk,
          plog := st.plog ++ [(rowArtId st.table i, "empty")],
          calls := st.calls, anyChanges := true,
          sinceCkpt := st.sinceCkpt + 1 } := by
    simp only [processIndex, hskip, Bool.false_eq_true, if_false, hblank, if_true]
  rw [hred, maybeCkpt_table, maybeCkpt_calls, maybeCkpt_plog]
  have hrow : (updRow st.table i (some "") (some "empty")).rows.getD i [] =
      setCell (setCell (st.table.rows.getD i []) "ArticleTextEnglish" (some ""))
        "TranslationStatus" (some "empty") := by
    simp only [updRow]
    exact getD_set_self _ _ _ _ hi
  refine ⟨?_, ?_, rfl, rfl⟩
  · rw [hrow, getCell_setCell_ne _ _ _ _ (by decide), getCell_setCell_eq]
  · rw [hrow, getCell_setCell_eq]

theorem c7_blank_handling_witness :
    getCell ((processIndex ctxBlank stBlank 0).table.rows.getD 0 [])
      "ArticleTextEnglish" = some "" ∧
    getCell ((processIndex ctxBlank stBlank 0).table.rows.getD 0 [])
      "TranslationStatus" = some "empty" ∧
    (processIndex ctxBlank stBlank 0).calls = stBlank.calls ∧
    (processIndex ctxBlank stBlank 0).plog =
      stBlank.plog ++ [(rowArtId stBlank.table 0, "empty")] :=
  c7_blank_handling ctxBlank stBlank 0 (by decide) (by decide) (by decide)

/-- C9 (confirmed): any failure of the resume merge — not only an
unreadable checkpoint file but also the `reindex` failure raised when the
checkpoint's `ArticleID` labels are duplicated — makes `load_or_init_output`
silently fall back to a fresh state seeded only from the input table,
discarding everything the checkpoint held. -/
theorem c9_merge_exception_fallback (input ck : Table) (ow : Bool)
    (hart : "ArticleID" ∈ input.cols)
    (hdup : ¬(idsOf (ensureOutCols (addMissingInputCols ck input))).Nodup) :
    load_or_init_output input (some (some ck)) ow = freshInit input ∧
    load_or_init_output input (some none) ow = freshInit input := by
  constructor
  · have hA : "ArticleID" ∈ (ensureOutCols (addMissingInputCols ck input)).cols :=
      mem_cols_ensureOutCols _ _ (mem_cols_addMissing _ _ _ hart)
    simp only [load_or_init_output, hA, if_true]
    rw [if_neg hdup]
  · rfl

theorem c9_merge_exception_fallback_witness :
    load_or_init_output sampleIn1 (some (some ckDup)) false = freshInit sampleIn1 ∧
    load_or_init_output sampleIn1 (some none) false = freshInit sampleIn1 :=
  c9_merge_exception_fallback sampleIn1 ckDup false (by decide) (by decide)

/-- C1 counterexample: a run over one fresh article, interrupted after the
article has been processed but before the final save.  The article's state
was mutated to `ok` in memory, the process exits with 130, yet nothing at
all is flushed to disk — no checkpoint file exists — refuting the claim
that every mutation is flushed by an unconditional final save before
exit. -/
theorem c1_interrupt_cex :
    (runMain sampleIn1 none cfgDef envOk (some 1)).exitCode = 130 ∧
    (runMain sampleIn1 none cfgDef envOk (some 1)).disk = none ∧
    getCell ((runMain sampleIn1 none cfgDef envOk (some 1)).table.rows.getD 0 [])
      "TranslationStatus" = some "ok" := by
  decide

/-- C1 (amended): an interrupted run exits with status 130, which is
non-zero and distinguishable from the clean-completion status 0, but the
final checkpoint save is skipped: the file on disk stays exactly as the
loop left it (mutations since the last periodic checkpoint are not
flushed). -/
theorem c1_interrupt_amended (input : Table) (disk0 : Option (Option Table))
    (cfg : Config) (env : Env) (k : Nat)
    (hb : (runLoopState input disk0 cfg env (some k)).2 = true) :
    (runMain input disk0 cfg env (some k)).exitCode = 130 ∧
    (runMain input disk0 cfg env (some k)).disk =
      (runLoopState input disk0 cfg env (some k)).1.disk ∧
    (runMain input disk0 cfg env none).exitCode = 0 ∧
    (runMain input disk0 cfg env (some k)).exitCode ≠
      (runMain input disk0 cfg env none).exitCode := by
  have hsnd : (runLoopState input disk0 cfg env none).2 = false :=
    mainLoop_none_snd _ _ _
  have hclean : (runMain input disk0 cfg env none).exitCode = 0 := by
    simp [runMain, hsnd]
  refine ⟨by simp [runMain, hb], by simp [runMain, hb], hclean, ?_⟩
  rw [hclean]
  simp [runMain, hb]

theorem c1_interrupt_amended_witness :
    (runMain sampleIn1 none cfgDef envOk (some 1)).exitCode = 130 ∧
    (runMain sampleIn1 none cfgDef envOk (some 1)).disk =
      (runLoopState sampleIn1 none cfgDef envOk (some 1)).1.disk ∧
    (runMain sampleIn1 none cfgDef envOk none).exitCode = 0 ∧
    (runMain sampleIn1 none cfgDef envOk (some 1)).exitCode ≠
      (runMain sampleIn1 none cfgDef envOk none).exitCode :=
  c1_interrupt_amended sampleIn1 none cfgDef envOk 1 (by decide)

/-- C2 counterexample: a run whose only state change is an article-level
error outcome, with an output file already on disk.  The run ends
naturally, before any periodic checkpoint, with the article freshly marked
`error: boom` in memory — yet no final save happens (the disk still holds
the old unreadable file), refuting the claim that a final save occurs
whenever any article changed state, including error transitions. -/
theorem c2_final_save_cex :
    (runMain sampleIn1 (some none) cfgDef envBoom none).exitCode = 0 ∧
    (runMain sampleIn1 (some none) cfgDef envBoom none).disk = some none ∧
    getCell ((runMain sampleIn1 (some none) cfgDef envBoom none).table.rows.getD 0 [])
      "TranslationStatus" = some "error: boom" ∧
    (runMain sampleIn1 (some none) cfgDef envBoom none).plog =
      [("0", "error boom")] := by
  decide

/-- C2 (amended): at natural run end a final save occurs exactly when the
dirty flag is set or no output file exists; the dirty flag is set only by
`ok` and `empty` transitions (and cleared by periodic saves) — an article
that transitions to the error outcome does not set it, so error-only
changes are not flushed by the final save. -/
theorem c2_final_save_amended (input : Table) (disk0 : Option (Option Table))
    (cfg : Config) (env : Env) :
    ((runLoopState input disk0 cfg env none).1.anyChanges = true ∨
        (runLoopState input disk0 cfg env none).1.disk = none →
      (runMain input disk0 cfg env none).disk =
        some (some (runLoopState input disk0 cfg env none).1.table)) ∧
    ((runLoopState input disk0 cfg env none).1.anyChanges = false →
      (runLoopState input disk0 cfg env none).1.disk ≠ none →
      (runMain input disk0 cfg env none).disk =
        (runLoopState input disk0 cfg env none).1.disk) ∧
    (∀ (ctx : RunCtx) (st : LoopState) (i : Nat),
      (processIndex ctx st i).anyChanges = true →
      st.anyChanges = true ∨
        ∃ a, (processIndex ctx st i).plog = st.plog ++ [(a, "empty")] ∨
          (processIndex ctx st i).plog = st.plog ++ [(a, "ok")]) := by
  have hsnd : (runLoopState input disk0 cfg env none).2 = false :=
    mainLoop_none_snd _ _ _
  refine ⟨?_, ?_, ?_⟩
  · intro h
    rcases h with h | h
    · simp [runMain, hsnd, h]
    · simp [runMain, hsnd, h]
  · intro h1 h2
    obtain ⟨d, hd⟩ := Option.ne_none_iff_exists'.mp h2
    simp [runMain, hsnd, h1, hd]
  · intro ctx st i h
    by_cases hskip : (!ctx.ow && ctx.doneMask.getD i false) = true
    · left
      rw [show processIndex ctx st i = st from by
        simp only [processIndex, hskip, if_true]] at h
      exact h
    · have hskip' : (!ctx.ow && ctx.doneMask.getD i false) = false := by
        simpa using hskip
      by_cases hbl : isBlankCell (getCell (st.table.rows.getD i []) "ArticleText") = true
      · right
        refine ⟨rowArtId st.table i, Or.inl ?_⟩
        rw [show processIndex ctx st i =
            maybeCkpt ctx
              { table := updRow st.table i (some "") (some "empty"),
                disk := st.disk,
                plog := st.plog ++ [(rowArtId st.table i, "empty")],
                calls := st.calls, anyChanges := true,
                sinceCkpt := st.sinceCkpt + 1 } from by
          simp only [processIndex, hskip', Bool.false_eq_true, if_false, hbl,
            if_true]]
        rw [maybeCkpt_plog]
      · have hbl' : isBlankCell (getCell (st.table.rows.getD i []) "ArticleText") =
            false := by simpa using hbl
        cases hr : ctx.env.raises i with
        | none =>
          right
          refine ⟨rowArtId st.table i, Or.inr ?_⟩
          rw [show processIndex ctx st i =
              maybeCkpt ctx
                { table := updRow st.table i
                    (some (ctx.env.translateArticle i)) (some "ok"),
                  disk := st.disk,
                  plog := st.plog ++ [(rowArtId st.table i, "ok")],
                  calls := st.calls ++ [i], anyChanges := true,
                  sinceCkpt := st.sinceCkpt + 1 } from by
            simp only [processIndex, hskip', Bool.false_eq_true, if_false, hbl',
              hr]]
          rw [maybeCkpt_plog]
        | some e =>
          left
          rw [show processIndex ctx st i =
              maybeCkpt ctx
                { table := updRow st.table i
                    (some (cellToStr (getCell (st.table.rows.getD i []) "ArticleText")))
                    (some ("error: " ++ e)),
                  disk := st.disk,
                  plog := st.plog ++ [(rowArtId st.table i, "error " ++ e)],
                  calls := st.calls, anyChanges := st.anyChanges,
                  sinceCkpt := st.sinceCkpt + 1 } from by
            simp only [processIndex, hskip', Bool.false_eq_true, if_false, hbl',
              hr]] at h
          revert h
          simp only [maybeCkpt]
          split
          · intro h
            cases h
          · intro h
            exact h

theorem c2_final_save_amended_witness :
    (runMain sampleIn1 none cfgDef envOk none).disk =
      some (some (runLoopState sampleIn1 none cfgDef envOk none).1.table) :=
  (c2_final_save_amended sampleIn1 none cfgDef envOk).1 (Or.inr (by decide))

/-- C4 counterexample: in the sentence
`http://a.com/URLTOKEN_1_X and www.b.com` both URLs are recognised, yet the
placeholder `URLTOKEN_1_X` already occurs as literal content of the
sentence (inside the first URL), so placeholders do collide with existing
content; and even for a translator that passes the masked sentence through
verbatim, the unmasked result does not contain the first original URL as a
substring — sequential replacement rewrites the placeholder-shaped part of
the restored URL — refuting the collision-freedom and round-trip
containment claims. -/
theorem c4_url_mask_cex :
    (protect_urls urlSent).2 =
      [("URLTOKEN_0_X", "http://a.com/URLTOKEN_1_X"),
        ("URLTOKEN_1_X", "www.b.com")] ∧
    hasSub urlSent "URLTOKEN_1_X" = true ∧
    restore_urls (protect_urls urlSent).1 (protect_urls urlSent).2 =
      "http://a.com/www.b.com and www.b.com" ∧
    hasSub (restore_urls (protect_urls urlSent).1 (protect_urls urlSent).2)
      "http://a.com/URLTOKEN_1_X" = false := by
  decide

/-- C4 (amended): the `i`-th URL match (0-based, in left-to-right order) is
replaced by the placeholder `URLTOKEN_i_X`, so the recorded placeholders
are exactly `URLTOKEN_0_X, URLTOKEN_1_X, ...` in match order; but the
placeholders are plain ASCII text that can collide with pre-existing
sentence content, and `restore_urls` is plain sequential exact substring
replacement of the recorded pairs, so the round-trip containment guarantee
fails when a URL or the sentence itself contains placeholder-shaped tokens.
A sentence with no URL match is left unchanged by masking, and unmasking
with the empty replacement list changes nothing, so no placeholder-shaped
token is ever introduced for URL-free sentences. -/
theorem c4_url_mask_amended (s : String) :
    ((protect_urls s).2).map Prod.fst =
      (List.range ((protect_urls s).2).length).map placeholderStr ∧
    ((protect_urls s).2 = [] → (protect_urls s).1 = s ∧ restore_urls s [] = s) := by
  constructor
  · have h := protectGo_placeholders s.data.length s.data 0
    simp only [protect_urls]
    rw [List.range_eq_range']
    exact h
  · intro h
    refine ⟨?_, rfl⟩
    have h2 := protectGo_no_match s.data.length s.data 0
      (by simpa [protect_urls] using h)
    simp only [protect_urls]
    rw [h2]

theorem c4_url_mask_amended_witness :
    (protect_urls "hello there").2 = [] ∧
    (protect_urls "hello there").1 = "hello there" ∧
    restore_urls "hello there" [] = "hello there" :=
  ⟨by decide, ((c4_url_mask_amended "hello there").2 (by decide)).1,
    ((c4_url_mask_amended "hello there").2 (by decide)).2⟩

/-- C10 counterexample: input with ids `0` and `1`, prior checkpoint
holding only id `0`.  After the merge, row 1 has missing values everywhere
(including its source text, which is not restored from the input) — but on
the subsequent non-overwrite run the row is *not* classified as blank: its
missing `ArticleTextEnglish` renders as the string `nan`, the resume mask
counts it as done, and it is skipped, keeping missing values and receiving
neither `translatedText = ""` nor `status = "empty"`. -/
theorem c10_missing_row_cex :
    getCell ((load_or_init_output sampleIn2 (some (some ckDone)) false).rows.getD 1 [])
      "ArticleText" = none ∧
    (runMain sampleIn2 (some (some ckDone)) cfgDef envOk none).plog = [] ∧
    getCell ((runMain sampleIn2 (some (some ckDone)) cfgDef envOk none).table.rows.getD 1 [])
      "TranslationStatus" = none ∧
    getCell ((runMain sampleIn2 (some (some ckDone)) cfgDef envOk none).table.rows.getD 1 [])
      "ArticleTextEnglish" = none ∧
    (runMain sampleIn2 (some (some ckDone)) cfgDef envOk none).calls = [] := by
  decide

/-- C10 (amended): when an existing checkpoint with unique ids is merged, a
row whose id appears in the input table but not in the checkpoint receives
missing values for every column other than `ArticleID` — in particular its
source text is not restored from the input — and on a subsequent
non-overwrite run the missing `translatedText` stringifies to `nan`, so
the resume mask marks the row as already done and the loop skips it
unchanged instead of classifying it as blank. -/
theorem c10_missing_row_amended (input ck : Table) (i : Nat) (idv : String)
    (hart : "ArticleID" ∈ input.cols)
    (hnd : (idsOf (ensureOutCols (addMissingInputCols ck input))).Nodup)
    (hi : i < input.rows.length)
    (hid : (idsOf input).getD i none = some idv)
    (hmiss : ∀ r ∈ (ensureOutCols (addMissingInputCols ck input)).rows,
      getCell r "ArticleID" ≠ some idv) :
    (∀ c, c ≠ "ArticleID" →
      getCell ((load_or_init_output input (some (some ck)) false).rows.getD i []) c =
        none) ∧
    doneMaskOf ((load_or_init_output input (some (some ck)) false).rows.getD i []) =
      true ∧
    (∀ (ctx : RunCtx) (st : LoopState),
      ctx.ow = false →
      ctx.doneMask =
        (load_or_init_output input (some (some ck)) false).rows.map doneMaskOf →
      processIndex ctx st i = st) := by
  have hA : "ArticleID" ∈ (ensureOutCols (addMissingInputCols ck input)).cols :=
    mem_cols_ensureOutCols _ _ (mem_cols_addMissing _ _ _ hart)
  have hload : load_or_init_output input (some (some ck)) false =
      reindexTable (ensureOutCols (addMissingInputCols ck input)) (idsOf input) := by
    simp only [load_or_init_output, hA, if_true]
    rw [if_pos hnd]
    simp
  have hfind : (ensureOutCols (addMissingInputCols ck input)).rows.find?
      (fun r => getCell r "ArticleID" == some idv) = none := by
    rw [List.find?_eq_none]
    intro r hr
    simp only [beq_iff_eq]
    exact hmiss r hr
  have hrow : (load_or_init_output input (some (some ck)) false).rows.getD i [] =
      allNoneRow (ensureOutCols (addMissingInputCols ck input)).cols (some idv) := by
    rw [hload]
    simp only [reindexTable]
    rw [getD_map _ _ _ _ none (by simp [idsOf, hi]), hid, hfind]
  have hATE :
      getCell ((load_or_init_output input (some (some ck)) false).rows.getD i [])
        "ArticleTextEnglish" = none := by
    rw [hrow]
    exact getCell_allNoneRow_ne _ _ _ (by decide)
  have hmask :
      doneMaskOf ((load_or_init_output input (some (some ck)) false).rows.getD i []) =
        true := by
    simp only [doneMaskOf, hATE]
    rfl
  refine ⟨?_, hmask, ?_⟩
  · intro c hc
    rw [hrow]
    exact getCell_allNoneRow_ne _ _ _ hc
  · intro ctx st how hdm
    apply processIndex_skip ctx st i how
    have hlen : i < (load_or_init_output input (some (some ck)) false).rows.length := by
      have := idsOf_load_or_init input (some (some ck)) false hart
      have hlen2 : (load_or_init_output input (some (some ck)) false).rows.length =
          input.rows.length := by
        have h1 : (idsOf (load_or_init_output input (some (some ck)) false)).length =
            (idsOf input).length := by rw [this]
        simpa [idsOf] using h1
      omega
    rw [hdm, getD_map _ _ _ _ ([] : Row) hlen, hmask]

theorem c10_missing_row_amended_witness :
    (∀ c, c ≠ "ArticleID" →
      getCell ((load_or_init_output sampleIn2 (some (some ckDone)) false).rows.getD 1 []) c =
        none) ∧
    doneMaskOf ((load_or_init_output sampleIn2 (some (some ckDone)) false).rows.getD 1 []) =
      true ∧
    (∀ (ctx : RunCtx) (st : LoopState),
      ctx.ow = false →
      ctx.doneMask =
        (load_or_init_output sampleIn2 (some (some ckDone)) false).rows.map doneMaskOf →
      processIndex ctx st 1 = st) :=
  c10_missing_row_amended sampleIn2 ckDone 1 "1" (by decide) (by decide)
    (by decide) (by decide) (by decide)

/-- C6 counterexample: a non-overwrite run over an input whose only row was
already translated in a prior checkpoint.  The row is skipped with its
record unchanged and no translator call, but the progress log receives no
entry at all — in particular no `skip` entry — refuting the claim that a
skip entry is appended for skipped rows. -/
theorem c6_skip_cex :
    (runMain sampleIn1 (some (some ckDone)) cfgDef envOk none).plog = [] ∧
    getCell ((runMain sampleIn1 (some (some ckDone)) cfgDef envOk none).table.rows.getD 0 [])
      "ArticleTextEnglish" = some "X" ∧
    (runMain sampleIn1 (some (some ckDone)) cfgDef envOk none).calls = [] := by
  decide

/-- C6 (amended): in a run without the overwrite directive, a row whose
`ArticleTextEnglish` is non-empty after stripping — which covers rows with
prior `ok` and `error` outcomes but not `empty` ones — is skipped leaving
the whole loop state unchanged, with nothing appended to the progress log;
a row whose prior `translatedText` is the empty string (as after an `empty`
outcome) is not masked as done and is reprocessed. -/
theorem c6_skip_amended :
    (∀ (ctx : RunCtx) (st : LoopState) (i : Nat),
      ctx.ow = false → ctx.doneMask.getD i false = true →
      processIndex ctx st i = st) ∧
    (∀ r : Row, getCell r "ArticleTextEnglish" = some "" →
      doneMaskOf r = false) := by
  constructor
  · exact fun ctx st i how hm => processIndex_skip ctx st i how hm
  · intro r h
    simp only [doneMaskOf, h]
    rfl

theorem c6_skip_amended_witness :
    processIndex ctxSkip stDone 0 = stDone ∧
    doneMaskOf (freshInit sampleIn1).rows.head! = false :=
  ⟨c6_skip_amended.1 ctxSkip stDone 0 rfl (by decide),
   c6_skip_amended.2 _ (by decide)⟩

theorem c5_ids_invariant_witness :
    idsOf (load_or_init_output sampleIn1 none false) = idsOf sampleIn1 ∧
    ((idsOf sampleIn1).Nodup →
      (idsOf (load_or_init_output sampleIn1 none false)).Nodup) ∧
    idsOf (runMain sampleIn1 none cfgDef envOk none).table = idsOf sampleIn1 ∧
    ((runMain sampleIn1 none cfgDef envOk none).disk = none ∨
      ∃ t, (runMain sampleIn1 none cfgDef envOk none).disk = some (some t) ∧
        idsOf t = idsOf sampleIn1) :=
  c5_ids_invariant sampleIn1 none false cfgDef envOk none (by decide)

end Eastview
